import Mathlib

/-!
Verification of the pants build-orchestration excerpts against their
specification.  Plugin code under `src/` is embedded directly; engine
components (content store, dependency graph, scheduler) that the spec
describes but whose implementation is not part of the excerpt are modelled
from the spec, as marked on each definition.
-/

/-! ## Python-level error model -/

/-- Exceptions raised by the embedded Python code. -/
inductive PyError where
  | valueError (msg : String)
  | invalidFieldException (msg : String)
  | keyError (key : String)
  | typeError (msg : String)
  | indexError
  | processExecutionFailure (description : String) (exitCode : Int)
  deriving DecidableEq, Repr

/-! ## C10: PythonFaaSHandlerField.compute_value (faas.py lines 136-144) -/

/-- Embeds `PythonFaaSHandlerField.compute_value` from
`src/python/pants/backend/python/util_rules/faas.py`.  `value` is the string
produced by `super().compute_value` (the generic `StringField` machinery is
outside the excerpt); `address` is the target address interpolated into the
error message.  Python's `":" in value` is the single-character substring
test, embedded as membership of the colon character in the string's
character list. -/
def computeValueHandler (value : String) (address : String) : Except PyError String :=
  if !(value.data.contains ':') then
    .error (.invalidFieldException
      ("The handler field in target at " ++ address ++
        " must end in the format :my_handler_func, but was " ++ value))
  else
    .ok value

/-! ## C9: classify_source_files (scala/goals/tailor.py lines 38-59) -/

/-- Embeds `os.path.basename`: the final path component after the last
slash. -/
def pathBasename (p : String) : String :=
  (p.splitOn "/").getLastD p

/-- Modelled from the spec: `FilespecMatcher` (`pants.source.filespec`) is not
part of the excerpt; it is modelled as an arbitrary predicate on file names,
with `matches` returning exactly the names satisfying the predicate. -/
def filespecMatches (matcher : String → Bool) (names : List String) : List String :=
  names.filter matcher

/-- The three target types returned by `classify_source_files`; the result
dict has exactly these keys. -/
inductive ScalaTargetType where
  | scalaJunitTestsGeneratorTarget
  | scalaSourcesGeneratorTarget
  | scalatestTestsGeneratorTarget
  deriving DecidableEq, Repr

/-- Embeds `classify_source_files` from
`src/python/pants/backend/scala/goals/tailor.py`.  The scalatest and junit
filespec matchers are abstract predicate parameters (their default filespecs
live outside the excerpt).  Python sets are modelled as filtered lists; the
result dict as a function on `ScalaTargetType`. -/
def classify_source_files (scalatestMatcher junitMatcher : String → Bool)
    (paths : List String) : ScalaTargetType → List String :=
  let basenames := paths.map pathBasename
  let scalatestFiles := paths.filter
    (fun p => (filespecMatches scalatestMatcher basenames).contains (pathBasename p))
  let junitFiles := paths.filter
    (fun p => (filespecMatches junitMatcher basenames).contains (pathBasename p))
  let sourcesFiles := paths.filter
    (fun p => !(scalatestFiles.contains p) && !(junitFiles.contains p))
  fun t => match t with
    | .scalaJunitTestsGeneratorTarget => junitFiles
    | .scalaSourcesGeneratorTarget => sourcesFiles
    | .scalatestTestsGeneratorTarget => scalatestFiles

/-! ## C5: Content Store (spec section 4.1, "write") -/

/-- Modelled from the spec: an injective encoding of byte sequences (bytes as
naturals) used as the ideal content hash of the store; the spec's Digest
invariant is that identical content always yields an identical Digest and a
cryptographic hash is treated as collision-free. -/
def encodeBytes : List Nat → Nat
  | [] => 0
  | b :: rest => Nat.pair b (encodeBytes rest) + 1

/-- Modelled from the spec: a Digest is "a fixed-size cryptographic hash +
byte length" (spec section 3). -/
structure Digest where
  fingerprint : Nat
  serializedBytesLength : Nat
  deriving DecidableEq, Repr

/-- Modelled from the spec: the content-derived Digest of a byte blob. -/
def digestOf (content : List Nat) : Digest :=
  ⟨encodeBytes content, content.length⟩

/-- Modelled from the spec: the Content Store, a content-addressed mapping
from Digest to owned blob bytes (spec section 9, arena-style store). -/
structure ContentStore where
  blobs : List (Digest × List Nat)
  deriving DecidableEq, Repr

/-- Modelled from the spec: `write(bytes) -> Digest`, idempotent; writing
identical content twice returns the same Digest without duplicating
storage (spec section 4.1). -/
def writeBlob (s : ContentStore) (content : List Nat) : Digest × ContentStore :=
  let d := digestOf content
  if s.blobs.any (fun e => e.1 == d) then (d, s)
  else (d, ⟨(d, content) :: s.blobs⟩)

/-- Number of stored copies keyed by digest `d`. -/
def storedCopies (s : ContentStore) (d : Digest) : Nat :=
  (s.blobs.filter (fun e => e.1 == d)).length

/-! ## C7: frozen process/request descriptors -/

/-- Embeds `LogLevel` (`pants.util.logging`), an enum compared by value. -/
inductive LogLevel where
  | trace
  | debug
  | info
  | warn
  | error
  deriving DecidableEq, Repr

/-- Embeds `NodeJSToolProcess` from
`src/python/pants/backend/javascript/subsystems/nodejs.py` (lines 274-322):
a `@dataclass(frozen=True)` request descriptor.  `FrozenDict`/`Mapping`
fields are modelled as association lists, tuples as lists. -/
structure NodeJSToolProcess where
  tool : String
  tool_version : Option String
  args : List String
  description : String
  level : LogLevel
  input_digest : Digest
  output_files : List String
  output_directories : List String
  working_directory : Option String
  append_only_caches : List (String × String)
  timeout_seconds : Option Int
  extra_env : List (String × String)
  project_digest : Option Digest
  deriving DecidableEq, Repr

/-- Embeds `InstalledNodePackageRequest` from
`src/python/pants/backend/javascript/install_node_package.py` (lines 41-43);
the single `Address` field is modelled as its spec string. -/
structure InstalledNodePackageRequest where
  address : String
  deriving DecidableEq, Repr

/-- Embeds `KotlinImport` from
`src/python/pants/backend/kotlin/dependency_inference/kotlin_parser.py`
(lines 60-79), a frozen dataclass. -/
structure KotlinImport where
  name : String
  aliasName : Option String
  is_wildcard : Bool
  deriving DecidableEq, Repr

/-- Embeds `KotlinSourceDependencyAnalysis` from `kotlin_parser.py`
(lines 82-89), a frozen dataclass; `frozenset` and `FrozenDict` fields are
modelled as lists (insertion order fixed by the JSON they are parsed
from). -/
structure KotlinSourceDependencyAnalysis where
  package : String
  imports : List KotlinImport
  named_declarations : List String
  consumed_symbols_by_scope : List (String × List String)
  scopes : List String
  deriving DecidableEq, Repr

/-- A content hash for strings, folding characters into a Nat, standing in
for CPython's string hash in the frozen-dataclass hash model. -/
def stringHashN (s : String) : Nat :=
  s.data.foldl (fun h c => h * 31 + c.toNat) 7

/-- Content hash of an optional value (Python hashes `None` to a fixed
value). -/
def optionHashN (f : α → Nat) : Option α → Nat
  | none => 0
  | some a => Nat.pair 1 (f a)

/-- Content hash of a tuple/list of component hashes, modelling Python's
`hash(tuple)`. -/
def tupleHashN (components : List Nat) : Nat :=
  components.foldl Nat.pair 5381

/-- Content hash of a Digest. -/
def digestHashN (d : Digest) : Nat :=
  Nat.pair d.fingerprint d.serializedBytesLength

/-- Content hash of a LogLevel. -/
def logLevelHashN : LogLevel → Nat
  | .trace => 0
  | .debug => 1
  | .info => 2
  | .warn => 3
  | .error => 4

/-- The frozen-dataclass hash of `NodeJSToolProcess`: a function of the
field tuple only, as generated by `@dataclass(frozen=True)`. -/
def nodeJSToolProcessHash (p : NodeJSToolProcess) : Nat :=
  tupleHashN
    [stringHashN p.tool,
     optionHashN stringHashN p.tool_version,
     tupleHashN (p.args.map stringHashN),
     stringHashN p.description,
     logLevelHashN p.level,
     digestHashN p.input_digest,
     tupleHashN (p.output_files.map stringHashN),
     tupleHashN (p.output_directories.map stringHashN),
     optionHashN stringHashN p.working_directory,
     tupleHashN (p.append_only_caches.map
       (fun e => Nat.pair (stringHashN e.1) (stringHashN e.2))),
     optionHashN Int.natAbs p.timeout_seconds,
     tupleHashN (p.extra_env.map
       (fun e => Nat.pair (stringHashN e.1) (stringHashN e.2))),
     optionHashN digestHashN p.project_digest]

/-- The frozen-dataclass hash of `InstalledNodePackageRequest`. -/
def installedNodePackageRequestHash (r : InstalledNodePackageRequest) : Nat :=
  tupleHashN [stringHashN r.address]

/-- The frozen-dataclass hash of `KotlinImport`. -/
def kotlinImportHash (i : KotlinImport) : Nat :=
  tupleHashN
    [stringHashN i.name,
     optionHashN stringHashN i.aliasName,
     cond i.is_wildcard 1 0]

/-- The frozen-dataclass hash of `KotlinSourceDependencyAnalysis`. -/
def kotlinAnalysisHash (a : KotlinSourceDependencyAnalysis) : Nat :=
  tupleHashN
    [stringHashN a.package,
     tupleHashN (a.imports.map kotlinImportHash),
     tupleHashN (a.named_declarations.map stringHashN),
     tupleHashN (a.consumed_symbols_by_scope.map
       (fun e => Nat.pair (stringHashN e.1) (tupleHashN (e.2.map stringHashN)))),
     tupleHashN (a.scopes.map stringHashN)]

/-! ## C3: Content Store merge (spec section 4.1, "merge") -/

/-- Modelled from the spec: a directory tree identified by a Digest, viewed
as the finite file mapping it denotes — a list of (path, content) entries
(paths as segment lists).  A Digest identifies its tree uniquely, so merge
is stated directly on trees. -/
abbrev FileTree := List (List String × String)

/-- Content defined by tree `t` at path `p` (first entry wins, as in a
well-formed tree where paths are unique). -/
def treeLookup (t : FileTree) (p : List String) : Option String :=
  (t.find? (fun e => e.1 == p)).map (·.2)

/-- A merge conflict: two inputs define different content at `path`. -/
structure ConflictError where
  path : List String
  deriving DecidableEq, Repr

/-- Modelled from the spec: `merge(Digest...) -> Digest` unions directory
trees and fails with `ConflictError` if two inputs define different content
at the same path (spec section 4.1). -/
def mergeTrees (t1 t2 : FileTree) : Except ConflictError FileTree :=
  match t2.find? (fun e =>
      match treeLookup t1 e.1 with
      | some c => c != e.2
      | none => false) with
  | some e => .error ⟨e.1⟩
  | none => .ok (t1 ++ t2.filter (fun e => (treeLookup t1 e.1).isNone))

/-! ## C4: add_prefix / remove_prefix (spec section 4.1) -/

/-- Modelled from the spec: a directory tree with explicit directory
structure, as composed by the prefix operations: a node is a file with
content or a directory of named entries. -/
inductive FsNode where
  | file (content : String)
  | dir (entries : List (String × FsNode))

/-- The entries of a directory-tree root. -/
abbrev DirEntries := List (String × FsNode)

/-- Modelled from the spec: `add_prefix(Digest, path) -> Digest`, a pure
path-rewrite wrapping the whole tree under the given prefix path (segment
list). -/
def addPrefixTree (t : DirEntries) : List String → DirEntries
  | [] => t
  | seg :: rest => [(seg, .dir (addPrefixTree t rest))]

/-- The failure of `remove_prefix` when the prefix is not there. -/
structure PathNotFoundError where
  missing : List String
  deriving DecidableEq, Repr

/-- Modelled from the spec: `remove_prefix(Digest, path) -> Digest`, the
pure inverse path-rewrite; it fails with `PathNotFoundError` if the tree is
not exactly the given prefix path wrapping a subtree (in particular whenever
the prefix does not exist in the tree). -/
def removePrefixTree (t : DirEntries) : List String → Except PathNotFoundError DirEntries
  | [] => .ok t
  | seg :: rest =>
    match t with
    | [(name, .dir sub)] =>
      if name = seg then removePrefixTree sub rest
      else .error ⟨seg :: rest⟩
    | _ => .error ⟨seg :: rest⟩

/-- The prefix path `p` exists in the tree: each segment in turn names a
directory entry. -/
def prefixExistsIn (t : DirEntries) : List String → Bool
  | [] => true
  | seg :: rest =>
    match t.find? (fun e => e.1 == seg) with
    | some (_, .dir sub) => prefixExistsIn sub rest
    | _ => false

/-! ## C1: Scheduler memoization / request deduplication (spec 4.2-4.3) -/

/-- Modelled from the spec: a Node key, the pair (RuleIdentity, ParamSet)
identifying a memoizable computation within a fixed Generation (spec
section 3).  Rule identities and parameter values are abstracted to
naturals. -/
structure RequestKey where
  ruleId : Nat
  params : List Nat
  deriving DecidableEq, Repr

/-- Modelled from the spec: the per-Generation scheduler memo table.
`nodes` maps each requested key to the execution id allocated for it
(`get_or_create`); `launches` records, in order, every execution actually
launched.  The spec makes the Graph internally synchronized (section 5), so
concurrent requests are modelled as an arbitrary serialized sequence. -/
structure SchedulerMemo where
  nodes : List (RequestKey × Nat)
  launches : List (RequestKey × Nat)
  deriving DecidableEq, Repr

/-- The empty memo table at the start of a Generation. -/
def SchedulerMemo.start : SchedulerMemo := ⟨[], []⟩

/-- The execution id recorded for key `k`, if any. -/
def lookupNode (s : SchedulerMemo) (k : RequestKey) : Option Nat :=
  (s.nodes.find? (fun e => e.1 == k)).map (·.2)

/-- Modelled from the spec: one request for key `k`
(`get_or_create(RuleIdentity, ParamSet) -> NodeHandle`): an existing node is
returned as-is (the caller subscribes to its single completion); otherwise a
Pending node is allocated and exactly one execution launched (spec 4.2:
at-most-one-concurrent-execution-per-key). Returns the new state and the
execution id the requester subscribes to. -/
def requestNode (s : SchedulerMemo) (k : RequestKey) : SchedulerMemo × Nat :=
  match lookupNode s k with
  | some n => (s, n)
  | none =>
    let n := s.nodes.length
    (⟨(k, n) :: s.nodes, s.launches ++ [(k, n)]⟩, n)

/-- A serialized burst of concurrent requests: processes each key in turn,
returning the final memo state and the trace pairing every request with the
execution id its requester subscribed to. -/
def runRequests : SchedulerMemo → List RequestKey → SchedulerMemo × List (RequestKey × Nat)
  | s, [] => (s, [])
  | s, k :: rest =>
    let r := requestNode s k
    let rr := runRequests r.1 rest
    (rr.1, (k, r.2) :: rr.2)

/-- How many executions were launched for key `k`. -/
def launchCount (s : SchedulerMemo) (k : RequestKey) : Nat :=
  (s.launches.filter (fun e => e.1 == k)).length

/-! ## C2: Dependency graph cycle detection (spec 4.2, "record_dependency") -/

/-- Modelled from the spec: a node of the dependency graph, named for
readability. -/
abbrev RuleNode := String

/-- Modelled from the spec: the dependency graph — dynamically discovered
edges (caller requested callee) and the set of completed nodes (spec
section 3, Edge/Node). -/
structure RuleGraph where
  edges : List (RuleNode × RuleNode)
  completed : List RuleNode
  deriving DecidableEq, Repr

/-- The cycle error, naming the cycle's node chain (spec 4.2). -/
structure CycleError where
  chain : List RuleNode
  deriving DecidableEq, Repr

/-- Bounded depth-first search for a dependency chain from `s` to `t`
through not-yet-completed nodes; `fuel` bounds the chain length, making the
search terminate on every input. -/
def findCyclePath (edges : List (RuleNode × RuleNode)) (completed : List RuleNode) :
    Nat → RuleNode → RuleNode → Option (List RuleNode)
  | 0, _, _ => none
  | fuel + 1, s, t =>
    if s = t then some [s]
    else edges.findSome? (fun e =>
      if e.1 = s ∧ e.2 ∉ completed then
        (findCyclePath edges completed fuel e.2 t).map (fun pth => s :: pth)
      else none)

/-- Modelled from the spec: `record_dependency(caller, callee)` — adds the
edge; if this introduces a cycle among not-yet-completed nodes, fails with
`CycleError` naming the cycle's node chain (spec 4.2).  The detector runs
only when both endpoints are still incomplete (a completed callee can no
longer be part of an in-flight cycle); the fuel `edges.length + 1` covers
every duplicate-free chain. -/
def recordDependency (g : RuleGraph) (caller callee : RuleNode) :
    Except CycleError RuleGraph :=
  if caller ∉ g.completed ∧ callee ∉ g.completed then
    match findCyclePath g.edges g.completed (g.edges.length + 1) callee caller with
    | some pth => .error ⟨caller :: pth⟩
    | none => .ok ⟨(caller, callee) :: g.edges, g.completed⟩
  else .ok ⟨(caller, callee) :: g.edges, g.completed⟩

/-- A genuine dependency chain: consecutive nodes are edges, every node on
it is not yet completed. -/
def chainOk (edges : List (RuleNode × RuleNode)) (completed : List RuleNode) :
    List RuleNode → Bool
  | [] => false
  | [x] => !(completed.contains x)
  | x :: y :: rest =>
    !(completed.contains x) && edges.contains (x, y) &&
      chainOk edges completed (y :: rest)

/-- The status of one in-flight rule execution. -/
inductive ExecStatus where
  | running
  | failedCycle (e : CycleError)
  deriving DecidableEq, Repr

/-- Modelled from the spec: the scheduler's view — the shared graph plus the
status of every in-flight execution. -/
structure SchedExecs where
  graph : RuleGraph
  statuses : List (Nat × ExecStatus)
  deriving DecidableEq, Repr

/-- Modelled from the spec: recording a dependency on behalf of execution
`execId`.  A `CycleError` "is fatal to the requesting execution only, not
the whole scheduler" (spec 4.2): on error only the requesting execution's
status becomes failed; the graph and every other execution are untouched. -/
def tryRecordDependency (st : SchedExecs) (execId : Nat) (caller callee : RuleNode) :
    SchedExecs :=
  match recordDependency st.graph caller callee with
  | .ok g' => ⟨g', st.statuses⟩
  | .error e => ⟨st.graph,
      st.statuses.map (fun q => if q.1 = execId then (q.1, .failedCycle e) else q)⟩

/-! ## C6/C8: the kotlin_parser rules (kotlin_parser.py lines 165-244) -/

/-- A JSON value, as produced by `json.loads` on the parser's output file. -/
inductive Json where
  | null
  | bool (b : Bool)
  | str (s : String)
  | arr (elems : List Json)
  | obj (entries : List (String × Json))

/-- Python `d[k]` on a JSON object: the value, or `KeyError`. -/
def Json.getItem (j : Json) (k : String) : Except PyError Json :=
  match j with
  | .obj entries =>
    match entries.find? (fun e => e.1 == k) with
    | some e => .ok e.2
    | none => .error (.keyError k)
  | _ => .error (.typeError "not a dict")

/-- Python `d.get(k)`: the value when present, `None` otherwise. -/
def Json.getOpt (j : Json) (k : String) : Option Json :=
  match j with
  | .obj entries => (entries.find? (fun e => e.1 == k)).map (·.2)
  | _ => none

/-- A JSON value used as a Python `str`. -/
def Json.asStr : Json → Except PyError String
  | .str s => .ok s
  | _ => .error (.typeError "expected str")

/-- A JSON value used as a Python `bool`. -/
def Json.asBool : Json → Except PyError Bool
  | .bool b => .ok b
  | _ => .error (.typeError "expected bool")

/-- A JSON value used as an optional `str` (absent alias is `None`). -/
def Json.asStrOrNone : Json → Except PyError (Option String)
  | .null => .ok none
  | .str s => .ok (some s)
  | _ => .error (.typeError "expected str or null")

/-- A JSON value used as a Python list. -/
def Json.asArr : Json → Except PyError (List Json)
  | .arr elems => .ok elems
  | _ => .error (.typeError "expected list")

/-- A JSON array of strings. -/
def Json.asStrList (j : Json) : Except PyError (List String) := do
  let elems ← j.asArr
  elems.mapM Json.asStr

/-- A JSON object's entry list. -/
def Json.asObjEntries : Json → Except PyError (List (String × Json))
  | .obj entries => .ok entries
  | _ => .error (.typeError "expected dict")

/-- Embeds `KotlinImport.from_json_dict` (kotlin_parser.py lines 66-72):
reads `name`, the optional `alias` and `isWildcard` from the JSON dict. -/
def KotlinImport.from_json_dict (d : Json) : Except PyError KotlinImport := do
  let name ← (← d.getItem "name").asStr
  let aliasName ← match d.getOpt "alias" with
    | none => pure none
    | some v => v.asStrOrNone
  let isWildcard ← (← d.getItem "isWildcard").asBool
  pure ⟨name, aliasName, isWildcard⟩

/-- Embeds `KotlinSourceDependencyAnalysis.from_json_dict` (kotlin_parser.py
lines 132-142); frozensets and FrozenDicts are modelled as lists in JSON
order. -/
def KotlinSourceDependencyAnalysis.from_json_dict (d : Json) :
    Except PyError KotlinSourceDependencyAnalysis := do
  let pkg ← (← d.getItem "package").asStr
  let importsJson ← (← d.getItem "imports").asArr
  let imports ← importsJson.mapM KotlinImport.from_json_dict
  let namedDecls ← (← d.getItem "namedDeclarations").asStrList
  let csbsEntries ← (← d.getItem "consumedSymbolsByScope").asObjEntries
  let csbs ← csbsEntries.mapM (fun kv => do
    let vs ← kv.2.asStrList
    pure (kv.1, vs))
  let scopes ← (← d.getItem "scopes").asStrList
  pure ⟨pkg, imports, namedDecls, csbs, scopes⟩

/-- Embeds `FallibleProcessResult` (`pants.engine.process`): the outcome of
an executed process — exit code and output digest. -/
structure FallibleProcessResult where
  exit_code : Int
  output_digest : Digest
  deriving DecidableEq, Repr

/-- Embeds `ProcessResult`: a process outcome already known successful. -/
structure ProcessResult where
  output_digest : Digest
  deriving DecidableEq, Repr

/-- Embeds `FallibleKotlinSourceDependencyAnalysisResult` (kotlin_parser.py
lines 156-158): the process outcome delivered as a value, not an
exception. -/
structure FallibleKotlinSourceDependencyAnalysisResult where
  process_result : FallibleProcessResult
  deriving DecidableEq, Repr

/-- Modelled from the spec: `fallible_to_exec_result_or_raise`
(`pants.engine.process`, outside the excerpt) converts a fallible process
result into a successful one, raising unless the exit code is zero — the
boundary where an error value becomes a propagating failure ("errors
propagate upward ... stopping only at a waiter that explicitly requested
fallible delivery"). -/
def fallibleToExecResultOrRaise (desc : String) (r : FallibleProcessResult) :
    Except PyError ProcessResult :=
  if r.exit_code = 0 then .ok ⟨r.output_digest⟩
  else .error (.processExecutionFailure desc r.exit_code)

/-- Embeds `SourceFiles` (`pants.core.util_rules.source_files`): the file
list plus its backing snapshot's file list and digest. -/
structure SourceFiles where
  files : List String
  snapshot_files : List String
  snapshot_digest : Digest
  deriving DecidableEq, Repr

/-- The parts of the `JvmProcess` request that
`analyze_kotlin_source_dependencies` fills in (kotlin_parser.py lines
206-227). -/
structure JvmProcessSpec where
  argv : List String
  input_digest : Digest
  output_files : List String
  description : String
  deriving DecidableEq, Repr

/-- The parser process built by `analyze_kotlin_source_dependencies` for a
single-file input (kotlin_parser.py lines 184-227); `addPrefixDigest`
abstracts the engine's `AddPrefix` intrinsic. -/
def kotlinParserProcessSpec (addPrefixDigest : Digest → String → Digest)
    (source_files : SourceFiles) : JvmProcessSpec :=
  { argv := ["org.pantsbuild.backend.kotlin.dependency_inference.KotlinParserKt",
      "__source_analysis.json",
      "__source_to_analyze/" ++ source_files.files.headD ""],
    input_digest := addPrefixDigest source_files.snapshot_digest "__source_to_analyze",
    output_files := ["__source_analysis.json"],
    description := "Analyzing " ++ source_files.files.headD "" }

/-- Embeds `analyze_kotlin_source_dependencies` (kotlin_parser.py lines
165-229): raises `ValueError` unless exactly one source file was passed
(the too-many message quotes the snapshot's file count, as the source
does), then runs the parser process (`execute_process`, abstracted as a
function) and returns its outcome wrapped fallibly — never raising on a
failing process. -/
def analyze_kotlin_source_dependencies
    (execute_process : JvmProcessSpec → FallibleProcessResult)
    (addPrefixDigest : Digest → String → Digest)
    (source_files : SourceFiles) :
    Except PyError FallibleKotlinSourceDependencyAnalysisResult :=
  if source_files.files.length > 1 then
    .error (.valueError
      ("analyze_kotlin_source_dependencies expects sources with exactly 1 source file, but found "
        ++ toString source_files.snapshot_files.length ++ "."))
  else if source_files.files.length = 0 then
    .error (.valueError
      "analyze_kotlin_source_dependencies expects sources with exactly 1 source file, but found none.")
  else
    .ok ⟨execute_process (kotlinParserProcessSpec addPrefixDigest source_files)⟩

/-- Embeds `resolve_fallible_result_to_analysis` (kotlin_parser.py lines
232-244): raises via `fallible_to_exec_result_or_raise` on a failed wrapped
process result, then reads the single JSON output file and parses it.
`get_digest_contents` is abstracted as a map from digests to the parsed
contents of their files (the standard library's `json.loads` folded in). -/
def resolve_fallible_result_to_analysis
    (get_digest_contents : Digest → List Json)
    (fallible_result : FallibleKotlinSourceDependencyAnalysisResult) :
    Except PyError KotlinSourceDependencyAnalysis :=
  match fallibleToExecResultOrRaise "Kotlin source dependency analysis failed."
      fallible_result.process_result with
  | .error e => .error e
  | .ok result =>
    match get_digest_contents result.output_digest with
    | [] => .error .indexError
    | c :: _ => KotlinSourceDependencyAnalysis.from_json_dict c

/-! ## Theorems -/

/-- C10: `PythonFaaSHandlerField.compute_value` returns the computed handler
string unchanged when it contains a `:` character, raises
`InvalidFieldException` for every value containing no `:`, and therefore
every stored handler value of this field contains a `:` separator. -/
theorem c10_handler_requires_colon (v addr : String) :
    (v.data.contains ':' = true → computeValueHandler v addr = .ok v) ∧
    (v.data.contains ':' = false → computeValueHandler v addr =
      .error (.invalidFieldException
        ("The handler field in target at " ++ addr ++
          " must end in the format :my_handler_func, but was " ++ v))) ∧
    (∀ r, computeValueHandler v addr = .ok r → r = v ∧ r.data.contains ':' = true) := by
  refine ⟨?_, ?_, ?_⟩
  · intro h
    have h' : ':' ∈ v.data := by simpa using h
    simp [computeValueHandler, h']
  · intro h
    have h' : ':' ∉ v.data := by simpa using h
    simp [computeValueHandler, h']
  · intro r hr
    unfold computeValueHandler at hr
    split at hr
    · exact absurd hr (by simp)
    · rename_i hcond
      obtain rfl : v = r := by simpa using hr
      exact ⟨rfl, by simpa using hcond⟩

/-- Witness for C10 at concrete handler strings. -/
theorem c10_handler_requires_colon_witness :
    computeValueHandler "path.to.module:handler_func" "demo:demo" =
      .ok "path.to.module:handler_func" ∧
    computeValueHandler "no_colon_here" "demo:demo" =
      .error (.invalidFieldException
        ("The handler field in target at demo:demo must end in the format " ++
          ":my_handler_func, but was no_colon_here")) := by
  refine ⟨(c10_handler_requires_colon "path.to.module:handler_func" "demo:demo").1 (by decide),
    ?_⟩
  have h := (c10_handler_requires_colon "no_colon_here" "demo:demo").2.1 (by decide)
  simpa using h

/-- C9: `classify_source_files` returns a mapping over exactly the three
target types (inherent in the result type `ScalaTargetType → List String`);
every input path belongs to at least one of the three sets; the
`ScalaSourcesGeneratorTarget` set is precisely the input paths whose basename
is matched by neither the Scalatest nor the JUnit filespec matcher, hence
disjoint from the other two sets. -/
theorem c9_classify_partition (stM juM : String → Bool) (paths : List String)
    (p : String) (hp : p ∈ paths) :
    (p ∈ classify_source_files stM juM paths .scalaJunitTestsGeneratorTarget ∨
     p ∈ classify_source_files stM juM paths .scalaSourcesGeneratorTarget ∨
     p ∈ classify_source_files stM juM paths .scalatestTestsGeneratorTarget) ∧
    (p ∈ classify_source_files stM juM paths .scalaSourcesGeneratorTarget ↔
      stM (pathBasename p) = false ∧ juM (pathBasename p) = false) ∧
    (p ∈ classify_source_files stM juM paths .scalaSourcesGeneratorTarget →
      p ∉ classify_source_files stM juM paths .scalatestTestsGeneratorTarget ∧
      p ∉ classify_source_files stM juM paths .scalaJunitTestsGeneratorTarget) := by
  have hbase : pathBasename p ∈ paths.map pathBasename := List.mem_map_of_mem _ hp
  have hST : p ∈ classify_source_files stM juM paths .scalatestTestsGeneratorTarget ↔
      stM (pathBasename p) = true := by
    simp only [classify_source_files, filespecMatches, List.mem_filter]
    simp [hp, hbase]
  have hJU : p ∈ classify_source_files stM juM paths .scalaJunitTestsGeneratorTarget ↔
      juM (pathBasename p) = true := by
    simp only [classify_source_files, filespecMatches, List.mem_filter]
    simp [hp, hbase]
  have hunfold : classify_source_files stM juM paths .scalaSourcesGeneratorTarget =
      paths.filter (fun q =>
        !((classify_source_files stM juM paths .scalatestTestsGeneratorTarget).contains q) &&
        !((classify_source_files stM juM paths .scalaJunitTestsGeneratorTarget).contains q)) :=
    rfl
  have hc1 : (classify_source_files stM juM paths .scalatestTestsGeneratorTarget).contains p
      = true ↔ stM (pathBasename p) = true := by
    rw [List.elem_iff]
    exact hST
  have hc2 : (classify_source_files stM juM paths .scalaJunitTestsGeneratorTarget).contains p
      = true ↔ juM (pathBasename p) = true := by
    rw [List.elem_iff]
    exact hJU
  have hSRC : p ∈ classify_source_files stM juM paths .scalaSourcesGeneratorTarget ↔
      stM (pathBasename p) = false ∧ juM (pathBasename p) = false := by
    rw [hunfold, List.mem_filter]
    constructor
    · rintro ⟨-, h⟩
      rw [Bool.and_eq_true] at h
      obtain ⟨h1, h2⟩ := h
      simp only [Bool.not_eq_true'] at h1 h2
      constructor
      · cases hb : stM (pathBasename p) with
        | false => rfl
        | true => rw [hc1.mpr hb] at h1; cases h1
      · cases hb : juM (pathBasename p) with
        | false => rfl
        | true => rw [hc2.mpr hb] at h2; cases h2
    · rintro ⟨h1, h2⟩
      refine ⟨hp, ?_⟩
      rw [Bool.and_eq_true]
      simp only [Bool.not_eq_true']
      constructor
      · cases hb : (classify_source_files stM juM paths
            .scalatestTestsGeneratorTarget).contains p with
        | false => rfl
        | true => rw [hc1.mp hb] at h1; cases h1
      · cases hb : (classify_source_files stM juM paths
            .scalaJunitTestsGeneratorTarget).contains p with
        | false => rfl
        | true => rw [hc2.mp hb] at h2; cases h2
  refine ⟨?_, hSRC, ?_⟩
  · cases hst : stM (pathBasename p) with
    | true => exact Or.inr (Or.inr (hST.mpr hst))
    | false =>
      cases hju : juM (pathBasename p) with
      | true => exact Or.inl (hJU.mpr hju)
      | false => exact Or.inr (Or.inl (hSRC.mpr ⟨hst, hju⟩))
  · intro hsrc
    obtain ⟨h1, h2⟩ := hSRC.mp hsrc
    constructor
    · intro hst
      rw [hST.mp hst] at h1
      cases h1
    · intro hju
      rw [hJU.mp hju] at h2
      cases h2

/-- Witness for C9 on a concrete path list and concrete matchers. -/
theorem c9_classify_partition_witness :
    let stM := fun s : String => s.data.contains 'S'
    let juM := fun s : String => s.data.contains 'J'
    let paths := ["dir/Main.scala", "dir/FooSpec.scala"]
    ("dir/Main.scala" ∈
        classify_source_files stM juM paths .scalaJunitTestsGeneratorTarget ∨
     "dir/Main.scala" ∈
        classify_source_files stM juM paths .scalaSourcesGeneratorTarget ∨
     "dir/Main.scala" ∈
        classify_source_files stM juM paths .scalatestTestsGeneratorTarget) ∧
    ("dir/Main.scala" ∈
        classify_source_files stM juM paths .scalaSourcesGeneratorTarget ↔
      stM (pathBasename "dir/Main.scala") = false ∧
      juM (pathBasename "dir/Main.scala") = false) ∧
    ("dir/Main.scala" ∈
        classify_source_files stM juM paths .scalaSourcesGeneratorTarget →
      "dir/Main.scala" ∉
        classify_source_files stM juM paths .scalatestTestsGeneratorTarget ∧
      "dir/Main.scala" ∉
        classify_source_files stM juM paths .scalaJunitTestsGeneratorTarget) :=
  c9_classify_partition _ _ _ "dir/Main.scala" (by simp)

/-- The ideal byte encoding is injective: identical encodings come only from
identical content. -/
theorem encodeBytes_injective : Function.Injective encodeBytes := by
  intro a
  induction a with
  | nil =>
    intro b hb
    cases b with
    | nil => rfl
    | cons x xs => simp [encodeBytes] at hb
  | cons x xs ih =>
    intro b hb
    cases b with
    | nil => simp [encodeBytes] at hb
    | cons y ys =>
      simp only [encodeBytes, Nat.add_right_cancel_iff] at hb
      obtain ⟨h1, h2⟩ := Nat.pair_eq_pair.mp hb
      rw [h1, ih h2]

/-- C5: Content Store writes are idempotent and content-deterministic:
writing content returns its content-derived Digest, re-writing the same
content returns the identical Digest and leaves the store untouched
(exactly one stored copy), and two writes yield the same Digest iff the
written content is identical. -/
theorem c5_write_idempotent (s : ContentStore) (a b : List Nat) :
    (writeBlob s a).1 = digestOf a ∧
    writeBlob (writeBlob s a).2 a = writeBlob s a ∧
    storedCopies (writeBlob s a).2 (digestOf a) =
      max (storedCopies s (digestOf a)) 1 ∧
    ((writeBlob s a).1 = (writeBlob s b).1 ↔ a = b) := by
  have hdig : ∀ c : List Nat, (writeBlob s c).1 = digestOf c := by
    intro c
    by_cases h : s.blobs.any (fun e => e.1 == digestOf c) <;> simp [writeBlob, h]
  refine ⟨hdig a, ?_, ?_, ?_⟩
  · by_cases h : s.blobs.any (fun e => e.1 == digestOf a)
    · have h1 : writeBlob s a = (digestOf a, s) := by
        unfold writeBlob
        simp [h]
      rw [h1]
      exact h1
    · have h1 : writeBlob s a = (digestOf a, ⟨(digestOf a, a) :: s.blobs⟩) := by
        unfold writeBlob
        simp only [h]
        simp [Bool.not_eq_true] at h
        simp [h]
      rw [h1]
      unfold writeBlob
      have h2 : ((⟨(digestOf a, a) :: s.blobs⟩ : ContentStore).blobs.any
          (fun e => e.1 == digestOf a)) = true := by
        simp
      simp [h2]
  · by_cases h : s.blobs.any (fun e => e.1 == digestOf a)
    · have h1 : writeBlob s a = (digestOf a, s) := by
        unfold writeBlob
        simp [h]
      rw [h1]
      have hpos : 1 ≤ storedCopies s (digestOf a) := by
        rw [List.any_eq_true] at h
        obtain ⟨e, he, hd⟩ := h
        have : e ∈ s.blobs.filter (fun e => e.1 == digestOf a) :=
          List.mem_filter.mpr ⟨he, hd⟩
        have := List.length_pos.mpr (List.ne_nil_of_mem this)
        exact this
      simp [Nat.max_eq_left hpos]
    · have h1 : writeBlob s a = (digestOf a, ⟨(digestOf a, a) :: s.blobs⟩) := by
        unfold writeBlob
        simp only [h]
        simp [Bool.not_eq_true] at h
        simp [h]
      rw [h1]
      have hzero : storedCopies s (digestOf a) = 0 := by
        unfold storedCopies
        rw [List.length_eq_zero, List.filter_eq_nil_iff]
        intro e he
        rw [List.any_eq_true] at h
        push_neg at h
        have := h e he
        simpa using this
      have hzero' : (s.blobs.filter (fun e => e.1 == digestOf a)).length = 0 := hzero
      unfold storedCopies
      simp [List.filter_cons, hzero']
  · rw [hdig a, hdig b]
    constructor
    · intro h
      have h1 : encodeBytes a = encodeBytes b := congrArg Digest.fingerprint h
      exact encodeBytes_injective h1
    · intro h
      rw [h]

/-- C7: the process/request descriptors are immutable value objects compared
and hashed by content: two instances of `NodeJSToolProcess`,
`InstalledNodePackageRequest` or `KotlinSourceDependencyAnalysis` with equal
field values are equal and hash equal (identical content yields an identical
memoization key); mutation is impossible in the value model, matching
`@dataclass(frozen=True)`. -/
theorem c7_frozen_value_objects :
    (∀ a b : NodeJSToolProcess,
      a.tool = b.tool → a.tool_version = b.tool_version → a.args = b.args →
      a.description = b.description → a.level = b.level →
      a.input_digest = b.input_digest → a.output_files = b.output_files →
      a.output_directories = b.output_directories →
      a.working_directory = b.working_directory →
      a.append_only_caches = b.append_only_caches →
      a.timeout_seconds = b.timeout_seconds → a.extra_env = b.extra_env →
      a.project_digest = b.project_digest →
      a = b ∧ nodeJSToolProcessHash a = nodeJSToolProcessHash b) ∧
    (∀ a b : InstalledNodePackageRequest, a.address = b.address →
      a = b ∧ installedNodePackageRequestHash a = installedNodePackageRequestHash b) ∧
    (∀ a b : KotlinSourceDependencyAnalysis,
      a.package = b.package → a.imports = b.imports →
      a.named_declarations = b.named_declarations →
      a.consumed_symbols_by_scope = b.consumed_symbols_by_scope →
      a.scopes = b.scopes →
      a = b ∧ kotlinAnalysisHash a = kotlinAnalysisHash b) := by
  refine ⟨?_, ?_, ?_⟩
  · intro a b h1 h2 h3 h4 h5 h6 h7 h8 h9 h10 h11 h12 h13
    have hab : a = b := by
      cases a
      cases b
      simp_all
    exact ⟨hab, by rw [hab]⟩
  · intro a b h1
    have hab : a = b := by
      cases a
      cases b
      simp_all
    exact ⟨hab, by rw [hab]⟩
  · intro a b h1 h2 h3 h4 h5
    have hab : a = b := by
      cases a
      cases b
      simp_all
    exact ⟨hab, by rw [hab]⟩

/-- Witness for C7 at concrete descriptor values. -/
theorem c7_frozen_value_objects_witness :
    (let p : NodeJSToolProcess :=
      ⟨"npm", some "10.0.0", ["install"], "Installing package", .info,
        digestOf [1, 2], ["out.txt"], [], none, [(".npm", "npm_cache")],
        some 30, [("PATH", "/bin")], none⟩
     p = p ∧ nodeJSToolProcessHash p = nodeJSToolProcessHash p) ∧
    (let r : InstalledNodePackageRequest := ⟨"src/js:lib"⟩
     r = r ∧ installedNodePackageRequestHash r = installedNodePackageRequestHash r) ∧
    (let a : KotlinSourceDependencyAnalysis :=
      ⟨"org.demo", [⟨"org.demo.Dep", none, false⟩], ["Main"],
        [("org.demo", ["println"])], ["org.demo"]⟩
     a = a ∧ kotlinAnalysisHash a = kotlinAnalysisHash a) :=
  ⟨c7_frozen_value_objects.1 _ _ rfl rfl rfl rfl rfl rfl rfl rfl rfl rfl rfl rfl rfl,
   c7_frozen_value_objects.2.1 _ _ rfl,
   c7_frozen_value_objects.2.2 _ _ rfl rfl rfl rfl rfl⟩

/-- `find?` only depends on the predicate's values on the list. -/
theorem find?_congr_pred {α : Type} {l : List α} {p q : α → Bool}
    (h : ∀ x ∈ l, p x = q x) : l.find? p = l.find? q := by
  induction l with
  | nil => rfl
  | cons x xs ih =>
    rw [List.find?_cons, List.find?_cons, h x (List.mem_cons_self x xs)]
    cases q x with
    | true => rfl
    | false => exact ih (fun y hy => h y (List.mem_cons_of_mem _ hy))

/-- In a tree whose paths are unique, lookup at a member entry's path
returns that entry's content. -/
theorem treeLookup_of_mem {t : FileTree} {e : List String × String}
    (hnd : (t.map Prod.fst).Nodup) (he : e ∈ t) :
    treeLookup t e.1 = some e.2 := by
  induction t with
  | nil => cases he
  | cons x xs ih =>
    rw [List.map_cons, List.nodup_cons] at hnd
    rcases List.mem_cons.mp he with rfl | hmem
    · unfold treeLookup
      rw [List.find?_cons]
      simp
    · have hne : x.1 ≠ e.1 := by
        intro hcontra
        exact hnd.1 (hcontra ▸ List.mem_map_of_mem Prod.fst hmem)
      unfold treeLookup
      rw [List.find?_cons]
      have hb : (x.1 == e.1) = false := by
        simpa using hne
      rw [hb]
      exact ih hnd.2 hmem

/-- Lookup in an appended tree is a left-biased union. -/
theorem treeLookup_append (l1 l2 : FileTree) (p : List String) :
    treeLookup (l1 ++ l2) p = (treeLookup l1 p).or (treeLookup l2 p) := by
  unfold treeLookup
  rw [List.find?_append]
  cases l1.find? (fun e => e.1 == p) with
  | none => simp [Option.or]
  | some e => simp [Option.or]

/-- C3: merging two digests that define the same path fails with
`ConflictError` when they give that path different content, and succeeds
with a Digest of the unioned tree (left-biased union, identical where
shared) when content agrees at every shared path.  `t2`'s paths are unique,
as in any tree a Digest identifies. -/
theorem c3_merge_conflict (t1 t2 : FileTree)
    (hnd : (t2.map Prod.fst).Nodup) :
    (∀ p c1 c2, treeLookup t1 p = some c1 → treeLookup t2 p = some c2 →
      c1 ≠ c2 → ∃ q, mergeTrees t1 t2 = .error q) ∧
    ((∀ p c1 c2, treeLookup t1 p = some c1 → treeLookup t2 p = some c2 →
        c1 = c2) →
      ∃ m, mergeTrees t1 t2 = .ok m ∧
        ∀ p, treeLookup m p = (treeLookup t1 p).or (treeLookup t2 p)) := by
  constructor
  · intro p c1 c2 h1 h2 hne
    have hfind : t2.find? (fun e => e.1 == p) = some ((t2.find? (fun e => e.1 == p)).get
        (by rw [Option.isSome_iff_exists]; exact ⟨_, (Option.map_eq_some'.mp h2).choose_spec.1⟩)) := by
      exact (Option.some_get _).symm
    obtain ⟨e0, he0⟩ := Option.map_eq_some'.mp h2
    have he0find : t2.find? (fun e => e.1 == p) = some e0 := he0.1
    have he0mem : e0 ∈ t2 := List.mem_of_find?_eq_some he0find
    have he0path : e0.1 = p := by
      have := List.find?_some he0find
      simpa using this
    have he0content : e0.2 = c2 := he0.2
    have hpred : (match treeLookup t1 e0.1 with
        | some c => c != e0.2
        | none => false) = true := by
      rw [he0path, h1, he0content]
      simpa using hne
    have : (t2.find? (fun e =>
        match treeLookup t1 e.1 with
        | some c => c != e.2
        | none => false)).isSome := by
      rw [List.find?_isSome]
      exact ⟨e0, he0mem, hpred⟩
    rw [Option.isSome_iff_exists] at this
    obtain ⟨efound, hefound⟩ := this
    exact ⟨⟨efound.1⟩, by unfold mergeTrees; rw [hefound]⟩
  · intro hagree
    have hnone : t2.find? (fun e =>
        match treeLookup t1 e.1 with
        | some c => c != e.2
        | none => false) = none := by
      rw [List.find?_eq_none]
      intro e he
      cases hcase : treeLookup t1 e.1 with
      | none => simp [hcase]
      | some c =>
        have ht2 : treeLookup t2 e.1 = some e.2 := treeLookup_of_mem hnd he
        have : c = e.2 := hagree e.1 c e.2 hcase ht2
        simp [hcase, this]
    refine ⟨t1 ++ t2.filter (fun e => (treeLookup t1 e.1).isNone), ?_, ?_⟩
    · unfold mergeTrees
      rw [hnone]
    · intro p
      rw [treeLookup_append]
      cases hcase : treeLookup t1 p with
      | some c => simp [Option.or]
      | none =>
        simp only [Option.or]
        have hpred : t2.find? (fun a => decide
            ((treeLookup t1 a.1).isNone = true ∧ (a.1 == p) = true)) =
            t2.find? (fun e => e.1 == p) := by
          apply find?_congr_pred
          intro e he
          by_cases hep : e.1 = p
          · have hn : (treeLookup t1 e.1).isNone = true := by
              rw [hep, hcase]
              rfl
            simp [hn, hep, hcase]
          · have hb : (e.1 == p) = false := by simpa using hep
            simp [hb]
        show ((t2.filter (fun e => (treeLookup t1 e.1).isNone)).find?
            (fun e => e.1 == p)).map (fun x => x.2) =
          (t2.find? (fun e => e.1 == p)).map (fun x => x.2)
        simp only [List.find?_filter]
        rw [hpred]

/-- Witness for C3: both inputs define `foo.txt`; different content raises
`ConflictError`, identical content merges into a valid unioned tree. -/
theorem c3_merge_conflict_witness :
    (∃ q, mergeTrees [(["foo.txt"], "AAA")] [(["foo.txt"], "BBB")] = .error q) ∧
    (∃ m, mergeTrees [(["foo.txt"], "AAA")] [(["foo.txt"], "AAA"), (["bar.txt"], "CCC")] = .ok m ∧
      ∀ p, treeLookup m p =
        (treeLookup [(["foo.txt"], "AAA")] p).or
          (treeLookup [(["foo.txt"], "AAA"), (["bar.txt"], "CCC")] p)) := by
  constructor
  · exact (c3_merge_conflict [(["foo.txt"], "AAA")] [(["foo.txt"], "BBB")]
      (by simp)).1 ["foo.txt"] "AAA" "BBB" rfl rfl (by decide)
  · refine (c3_merge_conflict [(["foo.txt"], "AAA")]
      [(["foo.txt"], "AAA"), (["bar.txt"], "CCC")] (by simp)).2 ?_
    intro p c1 c2 h1 h2
    by_cases hp : p = ["foo.txt"]
    · subst hp
      simp [treeLookup] at h1 h2
      rw [← h1, ← h2]
    · by_cases hp2 : p = ["bar.txt"]
      · subst hp2
        simp [treeLookup] at h1
      · exfalso
        apply hp
        unfold treeLookup at h1
        rw [List.find?_cons] at h1
        by_cases hb : (["foo.txt"] : List String) == p
        · simpa using (eq_of_beq hb).symm ▸ rfl
        · simp [hb] at h1

/-- C4: `add_prefix` and `remove_prefix` are pure path-rewrites:
`remove_prefix(add_prefix(d, p), p)` returns `d` unchanged for every tree
and prefix, and `remove_prefix(d, p)` fails with `PathNotFoundError`
whenever the prefix `p` does not exist in the tree. -/
theorem c4_prefix_rewrites (t : DirEntries) (p : List String) :
    removePrefixTree (addPrefixTree t p) p = .ok t ∧
    (prefixExistsIn t p = false →
      ∃ e, removePrefixTree t p = .error e) := by
  constructor
  · induction p with
    | nil => rfl
    | cons seg rest ih =>
      show removePrefixTree [(seg, .dir (addPrefixTree t rest))] (seg :: rest) = .ok t
      rw [show removePrefixTree [(seg, .dir (addPrefixTree t rest))] (seg :: rest) =
          if seg = seg then removePrefixTree (addPrefixTree t rest) rest
          else .error ⟨seg :: rest⟩ from rfl]
      rw [if_pos rfl]
      exact ih
  · induction p generalizing t with
    | nil =>
      intro h
      simp [prefixExistsIn] at h
    | cons seg rest ih =>
      intro h
      match t with
      | [] => exact ⟨⟨seg :: rest⟩, rfl⟩
      | [(name, .file c)] => exact ⟨⟨seg :: rest⟩, rfl⟩
      | [(name, .dir sub)] =>
        rw [show removePrefixTree [(name, FsNode.dir sub)] (seg :: rest) =
            if name = seg then removePrefixTree sub rest
            else .error ⟨seg :: rest⟩ from rfl]
        by_cases hn : name = seg
        · have hsub : prefixExistsIn sub rest = false := by
            have hred : prefixExistsIn [(name, FsNode.dir sub)] (seg :: rest) =
                match List.find? (fun e => e.1 == seg) [(name, FsNode.dir sub)] with
                | some (_, FsNode.dir s) => prefixExistsIn s rest
                | _ => false := rfl
            rw [hred, List.find?_cons] at h
            have hb : ((name, FsNode.dir sub).1 == seg) = true := by simpa using hn
            simp only [hb] at h
            simpa using h
          obtain ⟨e, he⟩ := ih sub hsub
          refine ⟨e, ?_⟩
          rw [if_pos hn]
          exact he
        · refine ⟨⟨seg :: rest⟩, ?_⟩
          rw [if_neg hn]
      | (n1, node1) :: e2 :: ts =>
        cases node1 with
        | file c => exact ⟨⟨seg :: rest⟩, rfl⟩
        | dir sub => exact ⟨⟨seg :: rest⟩, rfl⟩

/-- Witness for C4: the round-trip at an empty tree and a missing prefix
failing on a tree that lacks it. -/
theorem c4_prefix_rewrites_witness :
    removePrefixTree (addPrefixTree [] ["__source_to_analyze"]) ["__source_to_analyze"] =
      .ok [] ∧
    (∃ e, removePrefixTree ([(("other" : String), FsNode.file "x")]) ["classfiles"] =
      .error e) :=
  ⟨(c4_prefix_rewrites [] ["__source_to_analyze"]).1,
   (c4_prefix_rewrites [(("other" : String), FsNode.file "x")] ["classfiles"]).2 rfl⟩

/-- A key already in the memo table is returned as-is: no state change, the
existing execution id. -/
theorem requestNode_hit {s : SchedulerMemo} {k : RequestKey} {n : Nat}
    (h : lookupNode s k = some n) : requestNode s k = (s, n) := by
  unfold requestNode
  rw [h]

/-- A fresh key allocates a node and launches exactly one execution. -/
theorem requestNode_miss {s : SchedulerMemo} {k : RequestKey}
    (h : lookupNode s k = none) :
    requestNode s k =
      (⟨(k, s.nodes.length) :: s.nodes, s.launches ++ [(k, s.nodes.length)]⟩,
        s.nodes.length) := by
  unfold requestNode
  rw [h]

/-- Once key `k` resolves to execution `n`, any further request (for any
key) preserves that resolution and launches nothing more for `k`. -/
theorem requestNode_preserves {s : SchedulerMemo} {k : RequestKey} {n : Nat}
    (k' : RequestKey) (h : lookupNode s k = some n) :
    lookupNode (requestNode s k').1 k = some n ∧
    launchCount (requestNode s k').1 k = launchCount s k := by
  cases hl : lookupNode s k' with
  | some m =>
    rw [requestNode_hit hl]
    exact ⟨h, rfl⟩
  | none =>
    have hne : k' ≠ k := by
      intro he
      rw [he, h] at hl
      cases hl
    have hb : (k' == k) = false := by simpa using hne
    rw [requestNode_miss hl]
    constructor
    · unfold lookupNode at h ⊢
      rw [List.find?_cons]
      simp only [hb]
      exact h
    · unfold launchCount
      rw [List.filter_append]
      simp [hb]
  
/-- Before `k` is ever requested, requests for other keys do not touch it. -/
theorem requestNode_other {s : SchedulerMemo} {k k' : RequestKey}
    (hne : k' ≠ k) (h0 : lookupNode s k = none) (hc0 : launchCount s k = 0) :
    lookupNode (requestNode s k').1 k = none ∧
    launchCount (requestNode s k').1 k = 0 := by
  cases hl : lookupNode s k' with
  | some m =>
    rw [requestNode_hit hl]
    exact ⟨h0, hc0⟩
  | none =>
    have hb : (k' == k) = false := by simpa using hne
    rw [requestNode_miss hl]
    constructor
    · unfold lookupNode at h0 ⊢
      rw [List.find?_cons]
      simp only [hb]
      exact h0
    · unfold launchCount at hc0 ⊢
      rw [List.filter_append]
      simp [hb, hc0]

/-- Launch records only accumulate. -/
theorem requestNode_launches_mono {s : SchedulerMemo} {pr : RequestKey × Nat}
    (k' : RequestKey) (h : pr ∈ s.launches) :
    pr ∈ (requestNode s k').1.launches := by
  cases hl : lookupNode s k' with
  | some m =>
    rw [requestNode_hit hl]
    exact h
  | none =>
    rw [requestNode_miss hl]
    exact List.mem_append_left _ h

/-- Unfolding one step of a burst. -/
theorem runRequests_cons (s : SchedulerMemo) (k : RequestKey) (rest : List RequestKey) :
    runRequests s (k :: rest) =
      ((runRequests (requestNode s k).1 rest).1,
        (k, (requestNode s k).2) :: (runRequests (requestNode s k).1 rest).2) := rfl

/-- Over a whole burst: a resolved key stays resolved, gains no further
launches, every trace entry for it carries the resolved execution id, and
launch records are preserved. -/
theorem runRequests_preserves {k : RequestKey} {n : Nat} :
    ∀ (reqs : List RequestKey) (s : SchedulerMemo),
      lookupNode s k = some n →
      lookupNode (runRequests s reqs).1 k = some n ∧
      launchCount (runRequests s reqs).1 k = launchCount s k ∧
      (∀ pr ∈ (runRequests s reqs).2, pr.1 = k → pr.2 = n) ∧
      (∀ pr ∈ s.launches, pr ∈ (runRequests s reqs).1.launches) := by
  intro reqs
  induction reqs with
  | nil => exact fun s h => ⟨h, rfl, fun pr hpr => absurd hpr (List.not_mem_nil pr), fun pr h => h⟩
  | cons k' rest ih =>
    intro s h
    obtain ⟨hl, hc⟩ := requestNode_preserves k' h
    obtain ⟨ihl, ihc, ihtr, ihm⟩ := ih (requestNode s k').1 hl
    rw [runRequests_cons]
    refine ⟨ihl, by rw [ihc, hc], ?_, ?_⟩
    · intro pr hpr hprk
      rcases List.mem_cons.mp hpr with hpr1 | hmem
      · subst hpr1
        have hkk : k' = k := hprk
        subst hkk
        rw [requestNode_hit h]
      · exact ihtr pr hmem hprk
    · intro pr hpr
      exact ihm pr (requestNode_launches_mono k' hpr)

/-- If key `k` is requested at least once from a state that has never seen
it, exactly one execution is launched for `k` and every trace entry for `k`
subscribes to that single execution. -/
theorem runRequests_dedup_aux (k : RequestKey) :
    ∀ (reqs : List RequestKey) (s : SchedulerMemo),
      lookupNode s k = none → launchCount s k = 0 → k ∈ reqs →
      ∃ n, (k, n) ∈ (runRequests s reqs).1.launches ∧
        launchCount (runRequests s reqs).1 k = 1 ∧
        ∀ pr ∈ (runRequests s reqs).2, pr.1 = k → pr.2 = n := by
  intro reqs
  induction reqs with
  | nil => exact fun s _ _ hk => absurd hk (List.not_mem_nil k)
  | cons k' rest ih =>
    intro s h0 hc0 hk
    by_cases hkk : k' = k
    · subst hkk
      rw [runRequests_cons, requestNode_miss h0]
      dsimp only
      set s' : SchedulerMemo :=
        ⟨(k', s.nodes.length) :: s.nodes, s.launches ++ [(k', s.nodes.length)]⟩ with hs'
      have hl' : lookupNode s' k' = some s.nodes.length := by
        unfold lookupNode
        rw [hs', List.find?_cons]
        simp
      have hc' : launchCount s' k' = 1 := by
        unfold launchCount at hc0 ⊢
        rw [hs', List.filter_append]
        simp [hc0]
      have hm' : (k', s.nodes.length) ∈ s'.launches :=
        List.mem_append_right _ (List.mem_singleton.mpr rfl)
      obtain ⟨ihl, ihc, ihtr, ihm⟩ := runRequests_preserves rest s' hl'
      refine ⟨s.nodes.length, ihm _ hm', by rw [ihc, hc'], ?_⟩
      intro pr hpr hprk
      rcases List.mem_cons.mp hpr with hpr1 | hmem
      · subst hpr1
        rfl
      · exact ihtr pr hmem hprk
    · have hkrest : k ∈ rest := by
        rcases List.mem_cons.mp hk with rfl | hm
        · exact absurd rfl hkk
        · exact hm
      obtain ⟨hl2, hc2⟩ := requestNode_other hkk h0 hc0
      obtain ⟨n, hmem, hcount, htrace⟩ := ih (requestNode s k').1 hl2 hc2 hkrest
      rw [runRequests_cons]
      refine ⟨n, hmem, hcount, ?_⟩
      intro pr hpr hprk
      rcases List.mem_cons.mp hpr with hpr1 | hmem2
      · subst hpr1
        exact absurd hprk hkk
      · exact htrace pr hmem2 hprk

/-- C1: within a fixed Generation, if the same (RuleIdentity, ParamSet) key
is requested N >= 2 times concurrently (modelled as any serialized order of
the burst, the memo table being internally synchronized), the scheduler
launches exactly one execution for that key and every requester subscribes
to that single in-flight execution's result. -/
theorem c1_request_deduplication (reqs : List RequestKey) (k : RequestKey)
    (hN : 2 ≤ reqs.count k) :
    ∃ n, (k, n) ∈ (runRequests SchedulerMemo.start reqs).1.launches ∧
      launchCount (runRequests SchedulerMemo.start reqs).1 k = 1 ∧
      ∀ pr ∈ (runRequests SchedulerMemo.start reqs).2, pr.1 = k → pr.2 = n := by
  have hk : k ∈ reqs := by
    have hpos : 0 < reqs.count k := lt_of_lt_of_le (by norm_num) hN
    exact List.count_pos_iff.mp hpos
  exact runRequests_dedup_aux k reqs SchedulerMemo.start rfl rfl hk

/-- Witness for C1: two concurrent requests for the same key. -/
theorem c1_request_deduplication_witness :
    ∃ n, ((⟨1, [2]⟩ : RequestKey), n) ∈
        (runRequests SchedulerMemo.start [⟨1, [2]⟩, ⟨1, [2]⟩]).1.launches ∧
      launchCount (runRequests SchedulerMemo.start [⟨1, [2]⟩, ⟨1, [2]⟩]).1 ⟨1, [2]⟩ = 1 ∧
      ∀ pr ∈ (runRequests SchedulerMemo.start [⟨1, [2]⟩, ⟨1, [2]⟩]).2,
        pr.1 = (⟨1, [2]⟩ : RequestKey) → pr.2 = n :=
  c1_request_deduplication [⟨1, [2]⟩, ⟨1, [2]⟩] ⟨1, [2]⟩ (by decide)

/-- A dependency chain stays a chain when an edge is added. -/
theorem chainOk_mono_cons {completed : List RuleNode} (e0 : RuleNode × RuleNode) :
    ∀ (q : List RuleNode) (edges : List (RuleNode × RuleNode)),
      chainOk edges completed q = true → chainOk (e0 :: edges) completed q = true := by
  intro q
  induction q with
  | nil =>
    intro edges h
    exact absurd h (by simp [chainOk])
  | cons x tail ih =>
    intro edges h
    cases tail with
    | nil => simpa [chainOk] using h
    | cons y rest =>
      simp only [chainOk, Bool.and_eq_true] at h ⊢
      obtain ⟨⟨h1, h2⟩, h3⟩ := h
      exact ⟨⟨h1, List.elem_iff.mpr (List.mem_cons_of_mem _ (List.elem_iff.mp h2))⟩,
        ih edges h3⟩

/-- A chain avoiding node `x0` survives erasing any edge out of `x0`. -/
theorem chainOk_erase {completed : List RuleNode} (x0 z0 : RuleNode) :
    ∀ (q : List RuleNode) (edges : List (RuleNode × RuleNode)),
      chainOk edges completed q = true → x0 ∉ q →
      chainOk (edges.erase (x0, z0)) completed q = true := by
  intro q
  induction q with
  | nil =>
    intro edges h _
    exact absurd h (by simp [chainOk])
  | cons x tail ih =>
    intro edges h hx
    cases tail with
    | nil => simpa [chainOk] using h
    | cons y rest =>
      simp only [chainOk, Bool.and_eq_true] at h ⊢
      obtain ⟨⟨h1, h2⟩, h3⟩ := h
      have hxne : x ≠ x0 := by
        intro hc
        exact hx (hc ▸ List.mem_cons_self x (y :: rest))
      have hne : (x, y) ≠ (x0, z0) := by
        intro hc
        exact hxne (congrArg Prod.fst hc)
      refine ⟨⟨h1, ?_⟩, ih edges h3 (fun hc => hx (List.mem_cons_of_mem _ hc))⟩
      exact List.elem_iff.mpr ((List.mem_erase_of_ne hne).mpr (List.elem_iff.mp h2))

/-- A duplicate-free dependency chain has at most one node more than there
are edges. -/
theorem chainOk_length_le {completed : List RuleNode} :
    ∀ (pth : List RuleNode) (edges : List (RuleNode × RuleNode)),
      chainOk edges completed pth = true → pth.Nodup →
      pth.length ≤ edges.length + 1 := by
  intro pth
  induction pth with
  | nil =>
    intro edges h _
    exact absurd h (by simp [chainOk])
  | cons x tail ih =>
    intro edges h hnd
    cases tail with
    | nil => simp
    | cons y rest =>
      simp only [chainOk, Bool.and_eq_true] at h
      obtain ⟨⟨h1, h2⟩, h3⟩ := h
      rw [List.nodup_cons] at hnd
      obtain ⟨hx, hnd2⟩ := hnd
      have hmem : (x, y) ∈ edges := List.elem_iff.mp h2
      have h3' : chainOk (edges.erase (x, y)) completed (y :: rest) = true :=
        chainOk_erase x y (y :: rest) edges h3 hx
      have hlen := ih (edges.erase (x, y)) h3' hnd2
      have herase := List.length_erase_of_mem hmem
      have hpos : 1 ≤ edges.length := List.length_pos.mpr (List.ne_nil_of_mem hmem)
      rw [herase] at hlen
      simp only [List.length_cons] at hlen ⊢
      omega

/-- Soundness of the bounded search: any chain it returns is a genuine
not-yet-completed dependency chain from `s` to `t`. -/
theorem findCyclePath_sound {edges : List (RuleNode × RuleNode)}
    {completed : List RuleNode} :
    ∀ (fuel : Nat) (s t : RuleNode) (pth : List RuleNode), s ∉ completed →
      findCyclePath edges completed fuel s t = some pth →
      chainOk edges completed pth = true ∧ pth.head? = some s ∧
        pth.getLast? = some t := by
  intro fuel
  induction fuel with
  | zero =>
    intro s t pth _ h
    exact absurd h (by simp [findCyclePath])
  | succ f ih =>
    intro s t pth hs h
    simp only [findCyclePath] at h
    by_cases hst : s = t
    · rw [if_pos hst] at h
      obtain rfl : [s] = pth := by simpa using h
      subst hst
      exact ⟨by simpa [chainOk] using hs, rfl, rfl⟩
    · rw [if_neg hst] at h
      obtain ⟨e, hemem, hfe⟩ := List.exists_of_findSome?_eq_some h
      by_cases hcond : e.1 = s ∧ e.2 ∉ completed
      · rw [if_pos hcond] at hfe
        obtain ⟨p', hp', rfl⟩ := Option.map_eq_some'.mp hfe
        obtain ⟨hchain, hhead, hlast⟩ := ih e.2 t p' hcond.2 hp'
        cases p' with
        | nil => cases hhead
        | cons y rest =>
          have hy : y = e.2 := by simpa using hhead
          refine ⟨?_, rfl, by simpa using hlast⟩
          simp only [chainOk, Bool.and_eq_true]
          refine ⟨⟨by simpa using hs, ?_⟩, hchain⟩
          have hsy : (s, y) = e := by
            rw [← hcond.1, hy]
          exact List.elem_iff.mpr (hsy ▸ hemem)
      · rw [if_neg hcond] at hfe
        cases hfe

/-- Completeness of the bounded search: whenever a genuine chain from `s`
to `t` fits in the fuel, the search finds one. -/
theorem findCyclePath_complete {edges : List (RuleNode × RuleNode)}
    {completed : List RuleNode} :
    ∀ (pth : List RuleNode) (s t : RuleNode) (fuel : Nat),
      chainOk edges completed pth = true → pth.head? = some s →
      pth.getLast? = some t → pth.length ≤ fuel →
      (findCyclePath edges completed fuel s t).isSome = true := by
  intro pth
  induction pth with
  | nil =>
    intro s t fuel _ hh _ _
    cases hh
  | cons x tail ih =>
    intro s t fuel hchain hhead hlast hlen
    obtain rfl : x = s := by simpa using hhead
    cases fuel with
    | zero => simp at hlen
    | succ f =>
      simp only [findCyclePath]
      by_cases hst : x = t
      · rw [if_pos hst]
        rfl
      · rw [if_neg hst]
        cases tail with
        | nil => exact absurd (by simpa using hlast) hst
        | cons y rest =>
          simp only [chainOk, Bool.and_eq_true] at hchain
          obtain ⟨⟨h1, h2⟩, h3⟩ := hchain
          have hynotc : y ∉ completed := by
            cases rest with
            | nil => simpa [chainOk] using h3
            | cons z zs =>
              simp only [chainOk, Bool.and_eq_true] at h3
              simpa using h3.1.1
          have hrec : (findCyclePath edges completed f y t).isSome = true := by
            apply ih y t f h3 rfl (by simpa using hlast)
            simp only [List.length_cons] at hlen ⊢
            omega
          rw [Option.isSome_iff_exists] at hrec
          obtain ⟨p', hp'⟩ := hrec
          have hmem : (x, y) ∈ edges := List.elem_iff.mp h2
          cases hfs : edges.findSome? (fun e => if e.1 = x ∧ e.2 ∉ completed then
              (findCyclePath edges completed f e.2 t).map (fun pth => x :: pth)
              else none) with
          | some v => rfl
          | none =>
            rw [List.findSome?_eq_none_iff] at hfs
            have hcontra := hfs (x, y) hmem
            simp [hp', hynotc] at hcontra

/-- C2: when execution discovers a dependency cycle among not-yet-completed
nodes, `record_dependency` fails with a `CycleError` naming the cycle's node
chain (soundness: every reported chain is a genuine cycle through the new
edge, starting and ending at the caller; completeness: any genuine
duplicate-free chain from callee back to caller triggers the error); the
search is fuel-bounded so the run always terminates; and the failure is
fatal only to the requesting execution — the graph and every other
execution's status survive unchanged.  The concrete `A -> B -> A` scenario
fails with the chain `B, A, B`. -/
theorem c2_cycle_detection :
    (∀ (g : RuleGraph) (caller callee : RuleNode) (ch : List RuleNode),
      recordDependency g caller callee = .error ⟨ch⟩ →
        chainOk ((caller, callee) :: g.edges) g.completed ch = true ∧
        ch.head? = some caller ∧ ch.getLast? = some caller) ∧
    (∀ (g : RuleGraph) (caller callee : RuleNode) (pth : List RuleNode),
      caller ∉ g.completed → callee ∉ g.completed →
      chainOk g.edges g.completed pth = true → pth.Nodup →
      pth.head? = some callee → pth.getLast? = some caller →
      ∃ e, recordDependency g caller callee = .error e) ∧
    (∀ (st : SchedExecs) (execId : Nat) (caller callee : RuleNode) (e : CycleError),
      recordDependency st.graph caller callee = .error e →
        (tryRecordDependency st execId caller callee).graph = st.graph ∧
        ∀ q ∈ st.statuses, q.1 ≠ execId →
          q ∈ (tryRecordDependency st execId caller callee).statuses) ∧
    recordDependency ⟨[("A", "B")], []⟩ "B" "A" = .error ⟨["B", "A", "B"]⟩ := by
  refine ⟨?_, ?_, ?_, ?_⟩
  · intro g caller callee ch herr
    unfold recordDependency at herr
    by_cases hcond : caller ∉ g.completed ∧ callee ∉ g.completed
    · rw [if_pos hcond] at herr
      cases hfind : findCyclePath g.edges g.completed (g.edges.length + 1) callee caller with
      | none =>
        rw [hfind] at herr
        cases herr
      | some pth =>
        rw [hfind] at herr
        obtain rfl : caller :: pth = ch := by simpa using herr
        obtain ⟨hchain, hhead, hlast⟩ :=
          findCyclePath_sound (g.edges.length + 1) callee caller pth hcond.2 hfind
        cases pth with
        | nil => cases hhead
        | cons y rest =>
          obtain rfl : y = callee := by simpa using hhead
          refine ⟨?_, rfl, by simpa using hlast⟩
          simp only [chainOk, Bool.and_eq_true]
          refine ⟨⟨by simpa using hcond.1, ?_⟩, chainOk_mono_cons _ _ _ hchain⟩
          exact List.elem_iff.mpr (List.mem_cons_self _ _)
    · rw [if_neg hcond] at herr
      cases herr
  · intro g caller callee pth hcaller hcallee hchain hnd hhead hlast
    unfold recordDependency
    rw [if_pos ⟨hcaller, hcallee⟩]
    have hlen : pth.length ≤ g.edges.length + 1 :=
      chainOk_length_le pth g.edges hchain hnd
    have hsome := findCyclePath_complete pth callee caller
      (g.edges.length + 1) hchain hhead hlast hlen
    rw [Option.isSome_iff_exists] at hsome
    obtain ⟨p', hp'⟩ := hsome
    rw [hp']
    exact ⟨⟨caller :: p'⟩, rfl⟩
  · intro st execId caller callee e herr
    unfold tryRecordDependency
    rw [herr]
    refine ⟨rfl, ?_⟩
    intro q hq hqne
    have hfix : (fun q : Nat × ExecStatus =>
        if q.1 = execId then (q.1, ExecStatus.failedCycle e) else q) q = q :=
      if_neg hqne
    show q ∈ st.statuses.map (fun q => if q.1 = execId then (q.1, ExecStatus.failedCycle e) else q)
    rw [← hfix]
    exact List.mem_map_of_mem _ hq
  · rfl

/-- Witness for C2 at the concrete two-node cycle. -/
theorem c2_cycle_detection_witness :
    (chainOk [("B", "A"), ("A", "B")] [] ["B", "A", "B"] = true ∧
      (["B", "A", "B"] : List RuleNode).head? = some "B" ∧
      (["B", "A", "B"] : List RuleNode).getLast? = some "B") ∧
    (∃ e, recordDependency ⟨[("A", "B")], []⟩ "B" "A" = .error e) ∧
    ((tryRecordDependency ⟨⟨[("A", "B")], []⟩, [(7, .running)]⟩ 3 "B" "A").graph =
        ⟨[("A", "B")], []⟩ ∧
      ∀ q ∈ [((7 : Nat), ExecStatus.running)], q.1 ≠ 3 →
        q ∈ (tryRecordDependency ⟨⟨[("A", "B")], []⟩, [(7, .running)]⟩ 3 "B" "A").statuses) ∧
    recordDependency ⟨[("A", "B")], []⟩ "B" "A" = .error ⟨["B", "A", "B"]⟩ :=
  ⟨c2_cycle_detection.1 ⟨[("A", "B")], []⟩ "B" "A" ["B", "A", "B"]
      c2_cycle_detection.2.2.2,
   c2_cycle_detection.2.1 ⟨[("A", "B")], []⟩ "B" "A" ["A", "B"]
      (by decide) (by decide) (by decide) (by decide) rfl rfl,
   c2_cycle_detection.2.2.1 ⟨⟨[("A", "B")], []⟩, [(7, .running)]⟩ 3 "B" "A"
      ⟨["B", "A", "B"]⟩ c2_cycle_detection.2.2.2,
   c2_cycle_detection.2.2.2⟩

/-- C8: `analyze_kotlin_source_dependencies` accepts exactly one source
file: for a file list of length zero or greater than one it raises
`ValueError` without requesting any process execution (the result does not
depend on the process runner at all), and it runs the parser process
exactly when the list has one element. -/
theorem c8_single_source_file_required
    (ep ep' : JvmProcessSpec → FallibleProcessResult)
    (ap : Digest → String → Digest) (sf : SourceFiles) :
    (sf.files.length ≠ 1 →
      (∃ m, analyze_kotlin_source_dependencies ep ap sf = .error (.valueError m)) ∧
      analyze_kotlin_source_dependencies ep ap sf =
        analyze_kotlin_source_dependencies ep' ap sf) ∧
    (sf.files.length = 1 →
      analyze_kotlin_source_dependencies ep ap sf =
        .ok ⟨ep (kotlinParserProcessSpec ap sf)⟩) := by
  constructor
  · intro hne
    by_cases hgt : sf.files.length > 1
    · constructor
      · exact ⟨"analyze_kotlin_source_dependencies expects sources with exactly 1 source file, but found "
          ++ toString sf.snapshot_files.length ++ ".",
          by simp [analyze_kotlin_source_dependencies, hgt]⟩
      · simp [analyze_kotlin_source_dependencies, hgt]
    · have h0 : sf.files.length = 0 := by omega
      constructor
      · exact ⟨"analyze_kotlin_source_dependencies expects sources with exactly 1 source file, but found none.",
          by simp [analyze_kotlin_source_dependencies, hgt, h0]⟩
      · simp [analyze_kotlin_source_dependencies, hgt, h0]
  · intro h1
    have hgt : ¬ sf.files.length > 1 := by omega
    have h0 : ¬ sf.files.length = 0 := by omega
    simp [analyze_kotlin_source_dependencies, hgt, h0]

/-- Witness for C8 at a two-file input (rejected identically for any
process runner) and a one-file input (process runs). -/
theorem c8_single_source_file_required_witness :
    ((∃ m, analyze_kotlin_source_dependencies (fun _ => ⟨0, digestOf []⟩)
        (fun d _ => d) ⟨["A.kt", "B.kt"], ["A.kt", "B.kt"], digestOf []⟩ =
        .error (.valueError m)) ∧
      analyze_kotlin_source_dependencies (fun _ => ⟨0, digestOf []⟩)
        (fun d _ => d) ⟨["A.kt", "B.kt"], ["A.kt", "B.kt"], digestOf []⟩ =
      analyze_kotlin_source_dependencies (fun _ => ⟨1, digestOf []⟩)
        (fun d _ => d) ⟨["A.kt", "B.kt"], ["A.kt", "B.kt"], digestOf []⟩) ∧
    analyze_kotlin_source_dependencies (fun _ => ⟨0, digestOf []⟩)
      (fun d _ => d) ⟨["Main.kt"], ["Main.kt"], digestOf []⟩ =
      .ok ⟨(fun _ => (⟨0, digestOf []⟩ : FallibleProcessResult))
        (kotlinParserProcessSpec (fun d _ => d) ⟨["Main.kt"], ["Main.kt"], digestOf []⟩)⟩ :=
  ⟨(c8_single_source_file_required (fun _ => ⟨0, digestOf []⟩) (fun _ => ⟨1, digestOf []⟩)
      (fun d _ => d) ⟨["A.kt", "B.kt"], ["A.kt", "B.kt"], digestOf []⟩).1 (by decide),
   (c8_single_source_file_required (fun _ => ⟨0, digestOf []⟩) (fun _ => ⟨1, digestOf []⟩)
      (fun d _ => d) ⟨["Main.kt"], ["Main.kt"], digestOf []⟩).2 rfl⟩

/-- C6: a failed dependency's error is delivered as a value only to a
waiter that requested fallible delivery, and propagates otherwise:
`analyze_kotlin_source_dependencies` wraps the process outcome in
`FallibleKotlinSourceDependencyAnalysisResult` without raising even when
the process failed (the runner `ep` is arbitrary, including failing ones),
while `resolve_fallible_result_to_analysis` raises on a failed wrapped
result, never returns an analysis for it, and returns the parsed
`KotlinSourceDependencyAnalysis` exactly when the process succeeded. -/
theorem c6_fallible_error_delivery
    (gdc : Digest → List Json) (prf pr0 : FallibleProcessResult)
    (c : Json) (a : KotlinSourceDependencyAnalysis) (sf : SourceFiles)
    (ep : JvmProcessSpec → FallibleProcessResult) (ap : Digest → String → Digest)
    (hone : sf.files.length = 1)
    (hexitf : prf.exit_code ≠ 0)
    (hexit0 : pr0.exit_code = 0)
    (hcontents : gdc pr0.output_digest = [c])
    (hparse : KotlinSourceDependencyAnalysis.from_json_dict c = .ok a) :
    analyze_kotlin_source_dependencies ep ap sf =
      .ok ⟨ep (kotlinParserProcessSpec ap sf)⟩ ∧
    resolve_fallible_result_to_analysis gdc ⟨prf⟩ =
      .error (.processExecutionFailure
        "Kotlin source dependency analysis failed." prf.exit_code) ∧
    (∀ r : KotlinSourceDependencyAnalysis,
      resolve_fallible_result_to_analysis gdc ⟨prf⟩ ≠ .ok r) ∧
    resolve_fallible_result_to_analysis gdc ⟨pr0⟩ = .ok a := by
  have hgt : ¬ sf.files.length > 1 := by omega
  have h0 : ¬ sf.files.length = 0 := by omega
  have hfail : resolve_fallible_result_to_analysis gdc ⟨prf⟩ =
      .error (.processExecutionFailure
        "Kotlin source dependency analysis failed." prf.exit_code) := by
    unfold resolve_fallible_result_to_analysis fallibleToExecResultOrRaise
    simp [hexitf]
  refine ⟨?_, hfail, ?_, ?_⟩
  · simp [analyze_kotlin_source_dependencies, hgt, h0]
  · intro r hr
    rw [hfail] at hr
    cases hr
  · unfold resolve_fallible_result_to_analysis fallibleToExecResultOrRaise
    simp [hexit0, hcontents, hparse]

/-- Witness for C6: a failing process result (exit 1) and a succeeding one
(exit 0) whose output parses to a concrete analysis. -/
theorem c6_fallible_error_delivery_witness :
    analyze_kotlin_source_dependencies (fun _ => ⟨1, digestOf [7]⟩) (fun d _ => d)
      ⟨["Main.kt"], ["Main.kt"], digestOf []⟩ =
      .ok ⟨(fun _ => (⟨1, digestOf [7]⟩ : FallibleProcessResult))
        (kotlinParserProcessSpec (fun d _ => d) ⟨["Main.kt"], ["Main.kt"], digestOf []⟩)⟩ ∧
    resolve_fallible_result_to_analysis
      (fun _ => [Json.obj [("package", .str "org.demo"), ("imports", .arr []),
        ("namedDeclarations", .arr []), ("consumedSymbolsByScope", .obj []),
        ("scopes", .arr [])]])
      ⟨⟨1, digestOf [7]⟩⟩ =
      .error (.processExecutionFailure "Kotlin source dependency analysis failed." 1) ∧
    (∀ r : KotlinSourceDependencyAnalysis,
      resolve_fallible_result_to_analysis
        (fun _ => [Json.obj [("package", .str "org.demo"), ("imports", .arr []),
          ("namedDeclarations", .arr []), ("consumedSymbolsByScope", .obj []),
          ("scopes", .arr [])]])
        ⟨⟨1, digestOf [7]⟩⟩ ≠ .ok r) ∧
    resolve_fallible_result_to_analysis
      (fun _ => [Json.obj [("package", .str "org.demo"), ("imports", .arr []),
        ("namedDeclarations", .arr []), ("consumedSymbolsByScope", .obj []),
        ("scopes", .arr [])]])
      ⟨⟨0, digestOf [7]⟩⟩ = .ok ⟨"org.demo", [], [], [], []⟩ :=
  c6_fallible_error_delivery
    (fun _ => [Json.obj [("package", .str "org.demo"), ("imports", .arr []),
      ("namedDeclarations", .arr []), ("consumedSymbolsByScope", .obj []),
      ("scopes", .arr [])]])
    ⟨1, digestOf [7]⟩ ⟨0, digestOf [7]⟩
    (Json.obj [("package", .str "org.demo"), ("imports", .arr []),
      ("namedDeclarations", .arr []), ("consumedSymbolsByScope", .obj []),
      ("scopes", .arr [])])
    ⟨"org.demo", [], [], [], []⟩
    ⟨["Main.kt"], ["Main.kt"], digestOf []⟩
    (fun _ => ⟨1, digestOf [7]⟩) (fun d _ => d)
    rfl (by decide) rfl rfl rfl
